import Mathlib

/-!
Shallow embedding of `superdesk/vocabularies/vocabularies.py`
(`VocabulariesService`): vocabulary documents and items are Python dicts,
modelled as ordered association lists over a `Value` type mirroring the
JSON-like values the service manipulates.  The document store is modelled
as a pair of partial functions (live documents and soft-deleted documents).
-/

set_option autoImplicit false

namespace Vocab

/-- JSON-like Python values occurring in vocabulary documents. -/
inductive Value where
  | vnone
  | vbool (b : Bool)
  | vint (n : Int)
  | vstr (s : String)
  | vlist (l : List Value)
  | vdict (d : List (String × Value))

/-- A Python dict with string keys, as an ordered association list
(insertion order preserved, keys unique by construction). -/
abbrev Dict := List (String × Value)

namespace Dict

/-- Key lookup returning `none` when the key is absent (first match wins). -/
def get? : Dict → String → Option Value
  | [], _ => none
  | kv :: rest, k => if kv.1 = k then some kv.2 else get? rest k

/-- `d.get(k)`: Python returns `None` for a missing key. -/
def getv (d : Dict) (k : String) : Value :=
  (d.get? k).getD .vnone

/-- `d.get(k, dflt)`. -/
def getD (d : Dict) (k : String) (dflt : Value) : Value :=
  (d.get? k).getD dflt

/-- `k in d`. -/
def hasKey (d : Dict) (k : String) : Bool :=
  (d.get? k).isSome

/-- `d[k] = v`: replace in place when the key exists (keeping its
position, as Python dicts do), otherwise append. -/
def set : Dict → String → Value → Dict
  | [], k, v => [(k, v)]
  | kv :: rest, k, v => if kv.1 = k then (k, v) :: rest else kv :: set rest k v

/-- `del d[k]` (call sites guard against the missing-key error; keys are
unique, so removing the first occurrence is removing the key). -/
def erase : Dict → String → Dict
  | [], _ => []
  | kv :: rest, k => if kv.1 = k then rest else kv :: erase rest k

/-- `d.setdefault(k, v)`. -/
def setdefault (d : Dict) (k : String) (v : Value) : Dict :=
  if d.hasKey k then d else d ++ [(k, v)]

/-- `d.update(u)`: assign every key of `u` in order. -/
def update (d : Dict) (u : Dict) : Dict :=
  u.foldl (fun acc kv => acc.set kv.1 kv.2) d

end Dict

namespace Value

/-- Python truthiness of a value. -/
def truthy : Value → Bool
  | vnone => false
  | vbool b => b
  | vint n => n ≠ 0
  | vstr s => !s.isEmpty
  | vlist l => !l.isEmpty
  | vdict d => !d.isEmpty

/-- `str(v)` for the scalar values that reach `str()` in the service
(unique-field values are item fields, strings in practice).  Containers
get a placeholder rendering rather than Python's exact `repr`. -/
def pyStr : Value → String
  | vnone => "None"
  | vbool true => "True"
  | vbool false => "False"
  | vint n => toString n
  | vstr s => s
  | vlist _ => "<list>"
  | vdict _ => "<dict>"

/-- View a value as a dict (schema entries, translations maps). -/
def asDict : Value → Dict
  | vdict d => d
  | _ => []

/-- View a value as a list of item dicts (an `items` field). -/
def asItems : Value → List Dict
  | vlist l => l.filterMap (fun v => match v with | vdict d => some d | _ => none)
  | _ => []

/-- View a value as a string key (ids and field names are strings). -/
def asStr : Value → String
  | vstr s => s
  | _ => ""

end Value

mutual

/-- Python `==` as the service uses it: structural equality on scalars plus
the numeric identification of booleans with 0 and 1, applied elementwise
inside lists and dicts. -/
def pyEq : Value → Value → Bool
  | .vnone, .vnone => true
  | .vbool a, .vbool b => a == b
  | .vbool a, .vint b => (if a then (1 : Int) else 0) == b
  | .vint a, .vbool b => a == (if b then (1 : Int) else 0)
  | .vint a, .vint b => a == b
  | .vstr a, .vstr b => a == b
  | .vlist a, .vlist b => pyEqList a b
  | .vdict a, .vdict b => pyEqDict a b
  | _, _ => false

/-- Elementwise `pyEq` on lists. -/
def pyEqList : List Value → List Value → Bool
  | [], [] => true
  | a :: as, b :: bs => pyEq a b && pyEqList as bs
  | _, _ => false

/-- Entrywise `pyEq` on dicts (ordered comparison; the service never
compares dicts whose key order differs). -/
def pyEqDict : List (String × Value) → List (String × Value) → Bool
  | [], [] => true
  | (ka, va) :: as, (kb, vb) :: bs => ka == kb && pyEq va vb && pyEqDict as bs
  | _, _ => false

end

/-- ASCII uppercase of one character (`str.upper` on the repertoire the
vocabulary data uses). -/
def upChar (c : Char) : Char :=
  if 'a' ≤ c ∧ c ≤ 'z' then Char.ofNat (c.toNat - 32) else c

/-- ASCII lowercase of one character (`str.lower`). -/
def lowChar (c : Char) : Char :=
  if 'A' ≤ c ∧ c ≤ 'Z' then Char.ofNat (c.toNat + 32) else c

/-- `s.upper()` (ASCII). -/
def pyUpper (s : String) : String := ⟨s.data.map upChar⟩

/-- `s.lower()` (ASCII). -/
def pyLower (s : String) : String := ⟨s.data.map lowChar⟩

/-- The vocabulary document store: `find_one(_id=x)` on live documents and
`find_one(_id=x, _deleted=True)` on soft-deleted ones. -/
structure Store where
  live : String → Option Dict
  deleted : String → Option Dict

/-- A store with no documents at all. -/
def emptyStore : Store := ⟨fun _ => none, fun _ => none⟩

/-- Errors raised by the service (`SuperdeskApiError` variants). -/
inductive VocabError where
  | requiredField (field : String) (index : Nat)
  | linkNotFound (vocabId field : String) (value : Value) (index : Nat)
  | reservedId (id : String)
  | deletedId (id : String)
  | emptyUnique (field : String)
  | duplicateValue (value : Value) (field : String)
  | defaultVocabDelete

/-- The scan of `_check_uniqueness`, carrying the `unique_values`
accumulator: items whose `is_active` is not truthy are skipped; an active
item with a falsy unique-field value raises "cannot be empty"; an active
item whose uppercased stringified value was already seen raises the
duplicate error. -/
def checkUniquenessFrom (uf : String) : List Dict → List String → Except VocabError Unit
  | [], _ => .ok ()
  | item :: rest, seen =>
    if !(item.getv "is_active").truthy then checkUniquenessFrom uf rest seen
    else if !(item.getv uf).truthy then .error (.emptyUnique uf)
    else
      let u := pyUpper ((item.getv uf).pyStr)
      if seen.contains u then .error (.duplicateValue (item.getv uf) uf)
      else checkUniquenessFrom uf rest (seen ++ [u])

/-- `VocabulariesService._check_uniqueness(items, unique_field)`. -/
def check_uniqueness (items : List Dict) (uf : String) : Except VocabError Unit :=
  checkUniquenessFrom uf items []

/-- Resolved link values for one target vocabulary:
`[vocab.get(link_field) for vocab in (self.find_one(_id=link_vocab) or {}).get("items") or []]`. -/
def linkValues (store : Store) (vocabId lf : String) : List Value :=
  let linked : Dict := (store.live vocabId).getD []
  ((linked.getv "items").asItems).map (fun it => it.getv lf)

/-- The in-call state of `_validate_items`: the `vocabs` cache plus a log
of the `find_one` calls issued for link vocabularies, in order. -/
structure LinkCtx where
  cache : List (String × List Value)
  lookups : List String

/-- The fresh state at the start of a `_validate_items` call. -/
def emptyLinkCtx : LinkCtx := ⟨[], []⟩

/-- `vocabs.get(key)` on the cache. -/
def cacheGet : List (String × List Value) → String → Option (List Value)
  | [], _ => none
  | kv :: rest, k => if kv.1 = k then some kv.2 else cacheGet rest k

/-- `vocabs[key] = values` on the cache. -/
def cacheSet : List (String × List Value) → String → List Value →
    List (String × List Value)
  | [], k, v => [(k, v)]
  | kv :: rest, k, v => if kv.1 = k then (k, v) :: rest else kv :: cacheSet rest k v

/-- The cache-or-lookup step of `_validate_items` for one link target:
`if not vocabs.get(link_vocab): vocabs[link_vocab] = [...]` — the store
lookup fires whenever the cache holds no entry for the target vocabulary
or holds a falsy (empty) value list. -/
def resolveLink (store : Store) (vid lf : String) (ctx : LinkCtx) :
    List Value × LinkCtx :=
  match cacheGet ctx.cache vid with
  | some l =>
    if l.isEmpty then
      (linkValues store vid lf,
       ⟨cacheSet ctx.cache vid (linkValues store vid lf), ctx.lookups ++ [vid]⟩)
    else (l, ctx)
  | none =>
    (linkValues store vid lf,
     ⟨cacheSet ctx.cache vid (linkValues store vid lf), ctx.lookups ++ [vid]⟩)

/-- One iteration of the inner loop of `_validate_items`: schema entry
`(field, descV)` checked against item number `index`. -/
def checkField (store : Store) (uf : Value) (index : Nat) (item : Dict)
    (field : String) (descV : Value) (ctx : LinkCtx) : LinkCtx × Option VocabError :=
  let desc := descV.asDict
  if ((desc.getD "required" (.vbool false)).truthy || pyEq uf (.vstr field))
      && (!(item.hasKey field) || !(item.getv field).truthy) then
    (ctx, some (.requiredField field index))
  else if (desc.getv "link_vocab").truthy && (desc.getv "link_field").truthy then
    let vid := (desc.getv "link_vocab").asStr
    let lf := (desc.getv "link_field").asStr
    let r := resolveLink store vid lf ctx
    if (item.getv field).truthy && !(r.1.any (fun w => pyEq w (item.getv field))) then
      (r.2, some (.linkNotFound vid lf (item.getv field) index))
    else (r.2, none)
  else (ctx, none)

/-- The inner loop of `_validate_items` over the schema entries of one
item, stopping at the first error. -/
def checkFields (store : Store) (uf : Value) (index : Nat) (item : Dict) :
    List (String × Value) → LinkCtx → LinkCtx × Option VocabError
  | [], ctx => (ctx, none)
  | (field, descV) :: rest, ctx =>
    match checkField store uf index item field descV ctx with
    | (ctx2, some e) => (ctx2, some e)
    | (ctx2, none) => checkFields store uf index item rest ctx2

/-- The outer loop of `_validate_items` over `enumerate(update["items"])`,
stopping at the first error. -/
def checkItems (store : Store) (uf : Value) (schema : Dict) :
    Nat → List Dict → LinkCtx → LinkCtx × Option VocabError
  | _, [], ctx => (ctx, none)
  | index, item :: rest, ctx =>
    match checkFields store uf index item schema ctx with
    | (ctx2, some e) => (ctx2, some e)
    | (ctx2, none) => checkItems store uf schema (index + 1) rest ctx2

/-- The outcome of `_validate_items`: the argument after its in-place
mutation, the link-vocabulary `find_one` calls issued, and the first
validation error if any. -/
structure ValidateResult where
  doc : Dict
  lookups : List String
  err : Option VocabError

/-- `VocabulariesService._validate_items(update)`.  The guarded
`update["schema"]["qcode"]` access succeeds exactly when both keys exist,
and then `unique_field` defaults to `"qcode"`; checks run only when both
`"schema"` and `"items"` are present. -/
def validate_items (store : Store) (update : Dict) : ValidateResult :=
  let update :=
    if (update.getv "schema").asDict.hasKey "qcode" then
      update.setdefault "unique_field" (.vstr "qcode")
    else update
  let uf := update.getv "unique_field"
  if update.hasKey "schema" && update.hasKey "items" then
    let r := checkItems store uf (update.getv "schema").asDict 0
      (update.getv "items").asItems emptyLinkCtx
    ⟨update, r.1.lookups, r.2⟩
  else ⟨update, [], none⟩

/-- `on_create` for one document of the batch: validation (including its
in-place mutation of the document), then the reserved-system-key check —
which fires only for documents with a truthy `field_type` — then the
soft-deleted-id check.  Returns the document as it would be persisted. -/
def onCreateDoc (store : Store) (systemKeys : List String) (doc : Dict) :
    Except VocabError Dict :=
  let r := validate_items store doc
  match r.err with
  | some e => .error e
  | none =>
    let doc := r.doc
    if (doc.getv "field_type").truthy && systemKeys.contains (doc.getv "_id").asStr then
      .error (.reservedId (doc.getv "_id").asStr)
    else if (store.deleted (doc.getv "_id").asStr).isSome then
      .error (.deletedId (doc.getv "_id").asStr)
    else .ok doc

/-- `VocabulariesService.on_create(docs)`: documents are processed in
order and the first failure aborts the whole batch (the raised error
prevents every insertion). -/
def on_create (store : Store) (systemKeys : List String) :
    List Dict → Except VocabError (List Dict)
  | [] => .ok []
  | doc :: rest =>
    match onCreateDoc store systemKeys doc with
    | .error e => .error e
    | .ok d =>
      match on_create store systemKeys rest with
      | .error e => .error e
      | .ok ds => .ok (d :: ds)

/-- `VocabulariesService.on_update(updates, original)`: when the update
touches `items`, the merged view is revalidated; then, when the original
declares a truthy `unique_field`, uniqueness is checked over
`updates.get("items", [])`. -/
def on_update (store : Store) (updates original : Dict) : Except VocabError Unit :=
  let step1 : Except VocabError Unit :=
    if updates.hasKey "items" then
      match (validate_items store (original.update updates)).err with
      | some e => .error e
      | none => .ok ()
    else .ok ()
  match step1 with
  | .error e => .error e
  | .ok _ =>
    let uf := original.getv "unique_field"
    if uf.truthy then
      check_uniqueness ((updates.getD "items" (.vlist [])).asItems) uf.asStr
    else .ok ()

/-- `VocabulariesService.on_delete(doc)`. -/
def on_delete (doc : Dict) : Except VocabError Unit :=
  if !doc.hasKey "field_type" then .error .defaultVocabDelete else .ok ()

/-- One `translations` entry applied to the copied item:
`if field in new_item and language in values: new_item[field] = values[language]`. -/
def applyTranslation (lang : String) (item : Dict) (entry : String × Value) : Dict :=
  if item.hasKey entry.1 && (entry.2.asDict).hasKey lang then
    item.set entry.1 ((entry.2.asDict).getv lang)
  else item

/-- The per-item body of `get_locale_vocabulary`: items without a
`translations` key pass through; otherwise a copy is overlaid entry by
entry. -/
def localizeItem (lang : String) (item : Dict) : Dict :=
  if !item.hasKey "translations" then item
  else ((item.getv "translations").asDict).foldl (applyTranslation lang) item

/-- `VocabulariesService.get_locale_vocabulary(vocabulary, language)`:
a falsy item list or language is returned unchanged, otherwise a new list
of localized items is built. -/
def get_locale_vocabulary (items : List Dict) (language : Option String) : List Dict :=
  match language with
  | none => items
  | some lang =>
    if items.isEmpty || lang.isEmpty then items
    else items.map (localizeItem lang)

/-- The nested `format_item` of `get_items`: drop `is_active` (ignoring a
missing key) and attach `scheme = _id`. -/
def format_item (_id : String) (item : Dict) : Dict :=
  (item.erase "is_active").set "scheme" (.vstr _id)

/-- `VocabulariesService.get_items(_id, is_active)` for calls without the
`qcode`/`name` filters (the claims' case): the mongo projection is empty,
so the store yields the full document; a missing document or missing
`items` key yields `[]`; the `is_active` filter (absent key treated as
`True`, compared with Python `==`) is applied locally; each surviving
item loses `is_active` and gains `scheme = _id`. -/
def get_items (store : Store) (_id : String) (is_active : Option Bool) : List Dict :=
  match store.live _id with
  | none => []
  | some doc =>
    match doc.get? "items" with
    | none => []
    | some itemsV =>
      let items := itemsV.asItems
      let items :=
        match is_active with
        | none => items
        | some b => items.filter (fun i => pyEq (i.getD "is_active" (.vbool true)) (.vbool b))
      items.map (format_item _id)

/-- The reserved keywords vocabulary id (`KEYWORDS_CV`). -/
def KEYWORDS_CV : String := "keywords"

/-- The item built for a keyword: `name = qcode = keyword`, active. -/
def kwItem (kw : String) : Dict :=
  [("name", .vstr kw), ("qcode", .vstr kw), ("is_active", .vbool true)]

/-- The keywords vocabulary document built when none exists yet: one item
per input keyword, in input order, with no deduplication. -/
def kwInitialCV (keywords : List String) : Dict :=
  [("_id", .vstr KEYWORDS_CV),
   ("items", .vlist (keywords.map (fun kw => .vdict (kwItem kw)))),
   ("type", .vstr "manageable"),
   ("display_name", .vstr "Keywords"),
   ("unique_field", .vstr "name"),
   ("schema", .vdict [("name", .vdict []), ("qcode", .vdict [])])]

/-- The lowercased existing item names of the keywords vocabulary
(`{item["name"].lower() for item in cv.get("items", [])}`). -/
def existingKeywordNames (cv : Dict) : List String :=
  ((cv.getD "items" (.vlist [])).asItems).map (fun it => pyLower ((it.getv "name").pyStr))

/-- What a call to `add_missing_keywords` does to the store. -/
inductive KeywordsOutcome where
  | noop
  | created (doc : Dict)
  | updated (updates : Dict)
  | failed (e : VocabError)

/-- `VocabulariesService.add_missing_keywords(keywords)`: with an existing
keywords vocabulary, keywords whose lowercased form matches no existing
item name are appended (via the update lifecycle, which can fail); with no
existing vocabulary, a fresh document with one item per keyword is posted
through `on_create`. -/
def add_missing_keywords (store : Store) (systemKeys : List String)
    (keywords : List String) : KeywordsOutcome :=
  if keywords.isEmpty then .noop
  else
    match store.live KEYWORDS_CV with
    | some cv =>
      let existing := existingKeywordNames cv
      let missing := keywords.filter (fun kw => !(existing.contains (pyLower kw)))
      if missing.isEmpty then .noop
      else
        let newItems := (cv.getD "items" (.vlist [])).asItems ++ missing.map kwItem
        let updates : Dict := [("items", .vlist (newItems.map .vdict))]
        match on_update store updates cv with
        | .error e => .failed e
        | .ok _ => .updated updates
    | none =>
      match on_create store systemKeys [kwInitialCV keywords] with
      | .error e => .failed e
      | .ok docs => .created (docs.headD [])

/-- Keys of a dict are pairwise distinct: the Python dict invariant,
assumed where a proof reasons about key removal or overwriting. -/
def keysNodup (d : Dict) : Prop := (d.map Prod.fst).Nodup

/-- The uppercased stringified unique-field values of the items that
`_check_uniqueness` actually compares: those with truthy `is_active`. -/
def activeUniqueVals (items : List Dict) (uf : String) : List String :=
  (items.filter (fun it => (it.getv "is_active").truthy)).map
    (fun it => pyUpper ((it.getv uf).pyStr))

/-- Invariant of the `vocabs` cache of `_validate_items` with respect to
one target vocabulary `v`: no cache entry means no lookup for `v` has
happened yet; a cache entry means it is nonempty and exactly one lookup
produced it. -/
def CacheInv (v : String) (ctx : LinkCtx) : Prop :=
  (cacheGet ctx.cache v = none → ctx.lookups.count v = 0) ∧
  (∀ l, cacheGet ctx.cache v = some l → l ≠ [] ∧ ctx.lookups.count v ≤ 1)

/-- Fixture: the `languages` vocabulary of the spec's `get_items` example. -/
def langVocabDoc : Dict :=
  [("_id", .vstr "languages"),
   ("items", .vlist
     [.vdict [("name", .vstr "English"), ("is_active", .vbool true)],
      .vdict [("name", .vstr "Dead"), ("is_active", .vbool false)]])]

/-- Fixture: a store holding only the `languages` vocabulary. -/
def langStore : Store :=
  ⟨fun i => if i = "languages" then some langVocabDoc else none, fun _ => none⟩

/-- Fixture: the keyword batch of the spec's `addMissingKeywords` example. -/
def parisKeywords : List String := ["Paris", "paris", "London"]

/-- Fixture: a store holding the keywords vocabulary created from
`parisKeywords`. -/
def parisKeywordsStore : Store :=
  ⟨fun i => if i = KEYWORDS_CV then some (kwInitialCV parisKeywords) else none,
   fun _ => none⟩

/-- Fixture: two items sharing a case-insensitive name, both without an
`is_active` key. -/
def absentActiveItems : List Dict := [[("name", .vstr "A")], [("name", .vstr "a")]]

/-- Fixture: an original vocabulary declaring `unique_field` whose items
carry a case-insensitive duplicate. -/
def dupOriginal : Dict :=
  [("_id", .vstr "v"), ("unique_field", .vstr "name"),
   ("items", .vlist
     [.vdict [("name", .vstr "x"), ("is_active", .vbool true)],
      .vdict [("name", .vstr "X"), ("is_active", .vbool true)]])]

/-- Fixture: a vocabulary with one link-reference schema field and two
items lacking that field, pointing at a vocabulary absent from the store. -/
def twoItemLinkDoc : Dict :=
  [("_id", .vstr "d"),
   ("schema", .vdict
     [("ref", .vdict [("link_vocab", .vstr "v"), ("link_field", .vstr "qcode")])]),
   ("items", .vlist [.vdict [("name", .vstr "a")], .vdict [("name", .vstr "b")]])]

/-- Fixture: the item of the spec's locale-overlay example. -/
def globalItem : Dict :=
  [("name", .vstr "Global"),
   ("translations", .vdict [("name", .vdict [("fr", .vstr "Monde")])])]

/-- Fixture: a document without `field_type` whose id is a reserved
system key. -/
def reservedIdDoc : Dict := [("_id", .vstr "body_html"), ("display_name", .vstr "X")]

/-- Fixture: a document whose schema declares `qcode` and which omits
`unique_field`. -/
def qcodeSchemaDoc : Dict :=
  [("_id", .vstr "d"), ("schema", .vdict [("qcode", .vdict [])]),
   ("items", .vlist [])]

namespace Dict

theorem get?_cons (kv : String × Value) (rest : Dict) (k : String) :
    get? (kv :: rest) k = if kv.1 = k then some kv.2 else get? rest k := rfl

theorem get?_eq_none_of_not_mem {d : Dict} {k : String}
    (h : k ∉ d.map Prod.fst) : get? d k = none := by
  induction d with
  | nil => rfl
  | cons kv rest ih =>
    simp only [List.map_cons, List.mem_cons, not_or] at h
    have h1 : ¬kv.1 = k := fun hh => h.1 hh.symm
    simp [get?_cons, h1, ih h.2]

theorem get?_set (d : Dict) (k k' : String) (v : Value) :
    get? (set d k v) k' = if k' = k then some v else get? d k' := by
  induction d with
  | nil =>
    by_cases h : k' = k
    · simp [set, get?_cons, h]
    · have h1 : ¬k = k' := fun hh => h hh.symm
      simp [set, get?_cons, get?, h, h1]
  | cons kv rest ih =>
    by_cases h : kv.1 = k
    · subst h
      by_cases h2 : k' = kv.1
      · subst h2; simp [set, get?_cons]
      · have h1 : ¬kv.1 = k' := fun hh => h2 hh.symm
        simp [set, get?_cons, h1, h2]
    · by_cases h2 : kv.1 = k'
      · have h1 : ¬k' = k := by rw [← h2]; exact h
        simp [set, get?_cons, h, h2, h1]
      · simp [set, get?_cons, h, h2, ih]

theorem hasKey_set (d : Dict) (k k' : String) (v : Value) :
    hasKey (set d k v) k' = (decide (k' = k) || hasKey d k') := by
  by_cases h : k' = k <;> simp [hasKey, get?_set, h]

theorem get?_erase {d : Dict} (k k' : String) (h : keysNodup d) :
    get? (erase d k) k' = if k' = k then none else get? d k' := by
  induction d with
  | nil => simp [erase, get?]
  | cons kv rest ih =>
    have hnd : keysNodup rest := by
      simpa [keysNodup, List.nodup_cons] using (List.nodup_cons.mp h).2
    have hnm : kv.1 ∉ rest.map Prod.fst := by
      simpa [keysNodup] using (List.nodup_cons.mp h).1
    by_cases hk : kv.1 = k
    · subst hk
      simp only [erase, if_pos rfl]
      by_cases h2 : k' = kv.1
      · subst h2; simp [get?_eq_none_of_not_mem hnm]
      · have h1 : ¬kv.1 = k' := fun hh => h2 hh.symm
        simp [h2, get?_cons, h1]
    · by_cases h2 : kv.1 = k'
      · have hne : ¬k' = k := by rw [← h2]; exact hk
        simp [erase, hk, get?_cons, h2, hne]
      · simp [erase, hk, get?_cons, h2, ih hnd]

theorem setdefault_of_hasKey {d : Dict} {k : String} (v : Value)
    (h : hasKey d k = true) : setdefault d k v = d := by
  simp [setdefault, h]

theorem get?_append (d₁ d₂ : Dict) (k : String) :
    get? (d₁ ++ d₂) k = if (get? d₁ k).isSome then get? d₁ k else get? d₂ k := by
  induction d₁ with
  | nil => simp [get?]
  | cons kv rest ih =>
    by_cases h : kv.1 = k <;> simp [get?_cons, h, ih]

theorem setdefault_of_not_hasKey {d : Dict} {k : String} (v : Value)
    (h : hasKey d k = false) : setdefault d k v = d ++ [(k, v)] := by
  simp [setdefault, h]

theorem get?_setdefault_ne (d : Dict) {k k' : String} (v : Value) (h : k' ≠ k) :
    get? (setdefault d k v) k' = get? d k' := by
  by_cases hk : hasKey d k
  · simp [setdefault_of_hasKey v hk]
  · rw [setdefault_of_not_hasKey v (by simpa using hk), get?_append]
    by_cases hs : (get? d k').isSome
    · simp [hs]
    · have h1 : ¬k = k' := fun hh => h hh.symm
      have h2 : get? d k' = none := by
        cases hg : get? d k' with
        | none => rfl
        | some w => rw [hg] at hs; simp at hs
      simp [hs, get?_cons, h1, get?, h2]

theorem get?_eq_some_split {d : Dict} {k : String} {w : Value}
    (h : get? d k = some w) :
    ∃ d₁ d₂, d = d₁ ++ (k, w) :: d₂ ∧ ∀ e ∈ d₁, e.1 ≠ k := by
  induction d with
  | nil => simp [get?] at h
  | cons kv rest ih =>
    rw [get?_cons] at h
    by_cases hk : kv.1 = k
    · refine ⟨[], rest, ?_, by simp⟩
      simp only [if_pos hk] at h
      cases kv
      simp_all
    · simp only [if_neg hk] at h
      obtain ⟨d₁, d₂, heq, hne⟩ := ih h
      exact ⟨kv :: d₁, d₂, by simp [heq], by simpa [hk] using hne⟩

end Dict

theorem cacheGet_set_self (c : List (String × List Value)) (k : String) (l : List Value) :
    cacheGet (cacheSet c k l) k = some l := by
  induction c with
  | nil => simp [cacheSet, cacheGet]
  | cons kv rest ih =>
    by_cases h : kv.1 = k <;> simp [cacheSet, cacheGet, h, ih]

theorem cacheGet_set_ne (c : List (String × List Value)) {k k' : String}
    (l : List Value) (h : k' ≠ k) :
    cacheGet (cacheSet c k l) k' = cacheGet c k' := by
  induction c with
  | nil =>
    have h1 : ¬k = k' := fun hh => h hh.symm
    simp [cacheSet, cacheGet, h1]
  | cons kv rest ih =>
    by_cases hh : kv.1 = k
    · have h1 : ¬k = k' := fun x => h x.symm
      have h2 : ¬kv.1 = k' := by rw [hh]; exact h1
      simp [cacheSet, cacheGet, hh, h1, h2]
    · by_cases h2 : kv.1 = k' <;> simp [cacheSet, cacheGet, hh, h2, h, ih]

theorem count_append_singleton (l : List String) (a v : String) :
    ((l ++ [a]).count v) = l.count v + (if a = v then 1 else 0) := by
  by_cases h : a = v <;> simp [List.count_append, h, List.count_singleton]

/-- The lookup-count state after a freshly fired lookup for `v`. -/
theorem cacheInv_after_lookup {store : Store} {v : String}
    (H : ∀ lf, linkValues store v lf ≠ [])
    {ctx : LinkCtx} (h : CacheInv v ctx) (hc : cacheGet ctx.cache v = none)
    (lf : String) :
    CacheInv v ⟨cacheSet ctx.cache v (linkValues store v lf), ctx.lookups ++ [v]⟩ := by
  have hc0 : ctx.lookups.count v = 0 := h.1 hc
  constructor
  · intro hget
    rw [cacheGet_set_self] at hget
    cases hget
  · intro l hget
    rw [cacheGet_set_self] at hget
    cases hget
    refine ⟨H lf, ?_⟩
    simp [count_append_singleton, hc0]

/-- A lookup for a different vocabulary leaves the invariant for `v`
untouched. -/
theorem cacheInv_other_lookup {v vid : String} (hv : vid ≠ v)
    {ctx : LinkCtx} (h : CacheInv v ctx) (l2 : List Value) :
    CacheInv v ⟨cacheSet ctx.cache vid l2, ctx.lookups ++ [vid]⟩ := by
  constructor
  · intro hget
    rw [cacheGet_set_ne _ _ (fun x => hv x.symm)] at hget
    rw [count_append_singleton]
    simp [hv, h.1 hget]
  · intro l hget
    rw [cacheGet_set_ne _ _ (fun x => hv x.symm)] at hget
    refine ⟨(h.2 l hget).1, ?_⟩
    rw [count_append_singleton]
    simpa [hv] using (h.2 l hget).2

/-- `resolveLink` preserves the cache invariant for a target vocabulary
whose resolved value list is nonempty for every link field. -/
theorem resolveLink_cacheInv {store : Store} {v : String}
    (H : ∀ lf, linkValues store v lf ≠ [])
    (vid lf : String) {ctx : LinkCtx} (h : CacheInv v ctx) :
    CacheInv v (resolveLink store vid lf ctx).2 := by
  by_cases hv : vid = v
  · subst hv
    unfold resolveLink
    cases hc : cacheGet ctx.cache vid with
    | some l =>
      have hl : l ≠ [] := (h.2 l hc).1
      have hl2 : l.isEmpty = false := by simpa using hl
      simp only [hl2]
      exact h
    | none => exact cacheInv_after_lookup H h hc lf
  · unfold resolveLink
    cases hc : cacheGet ctx.cache vid with
    | some l =>
      cases hl : l.isEmpty
      · simp only [hl]
        exact h
      · simp only [hl]
        exact cacheInv_other_lookup hv h _
    | none => exact cacheInv_other_lookup hv h _

/-- `checkField` preserves the cache invariant. -/
theorem checkField_cacheInv {store : Store} {v : String}
    (H : ∀ lf, linkValues store v lf ≠ [])
    (uf : Value) (index : Nat) (item : Dict) (field : String) (descV : Value)
    {ctx : LinkCtx} (h : CacheInv v ctx) :
    CacheInv v (checkField store uf index item field descV ctx).1 := by
  simp only [checkField]
  split
  · exact h
  · split
    · split
      · exact resolveLink_cacheInv H _ _ h
      · exact resolveLink_cacheInv H _ _ h
    · exact h

/-- The inner schema loop preserves the cache invariant. -/
theorem checkFields_cacheInv {store : Store} {v : String}
    (H : ∀ lf, linkValues store v lf ≠ [])
    (uf : Value) (index : Nat) (item : Dict) (entries : List (String × Value))
    {ctx : LinkCtx} (h : CacheInv v ctx) :
    CacheInv v (checkFields store uf index item entries ctx).1 := by
  induction entries generalizing ctx with
  | nil => exact h
  | cons e rest ih =>
    rw [checkFields]
    cases hcf : checkField store uf index item e.1 e.2 ctx with
    | mk ctx2 err =>
      have h2 : CacheInv v ctx2 := by
        have := checkField_cacheInv H uf index item e.1 e.2 h
        rw [hcf] at this
        exact this
      cases err with
      | some e2 => exact h2
      | none => exact ih h2

/-- The outer item loop preserves the cache invariant. -/
theorem checkItems_cacheInv {store : Store} {v : String}
    (H : ∀ lf, linkValues store v lf ≠ [])
    (uf : Value) (schema : Dict) (index : Nat) (items : List Dict)
    {ctx : LinkCtx} (h : CacheInv v ctx) :
    CacheInv v (checkItems store uf schema index items ctx).1 := by
  induction items generalizing ctx index with
  | nil => exact h
  | cons item rest ih =>
    rw [checkItems]
    cases hcf : checkFields store uf index item schema ctx with
    | mk ctx2 err =>
      have h2 : CacheInv v ctx2 := by
        have := checkFields_cacheInv H uf index item schema h
        rw [hcf] at this
        exact this
      cases err with
      | some e2 => exact h2
      | none => exact ih _ h2

theorem isEmpty_false_of_ne {s : String} (h : s ≠ "") : s.isEmpty = false := by
  cases hs : s.isEmpty
  · rfl
  · exact absurd ((String.isEmpty_iff s).mp hs) h

theorem applyTranslation_hasKey (lang : String) (item : Dict) (e : String × Value)
    (g : String) :
    Dict.hasKey (applyTranslation lang item e) g = Dict.hasKey item g := by
  unfold applyTranslation
  split
  · rename_i hcond
    rw [Bool.and_eq_true] at hcond
    have h1 : Dict.hasKey item e.1 = true := hcond.1
    rw [Dict.hasKey_set]
    by_cases hg : g = e.1
    · subst hg; simp [h1]
    · simp [hg]
  · rfl

theorem applyTranslation_eq_set {lang : String} {item : Dict} {g : String} {w : Value}
    (h1 : Dict.hasKey item g = true) (h2 : Dict.hasKey (w.asDict) lang = true) :
    applyTranslation lang item (g, w) = Dict.set item g ((w.asDict).getv lang) := by
  unfold applyTranslation
  dsimp only
  rw [h1, h2]
  simp

theorem foldl_applyTranslation_hasKey (lang : String) (t : List (String × Value))
    (item : Dict) (g : String) :
    Dict.hasKey (t.foldl (applyTranslation lang) item) g = Dict.hasKey item g := by
  induction t generalizing item with
  | nil => rfl
  | cons e rest ih => rw [List.foldl_cons, ih, applyTranslation_hasKey]

theorem foldl_applyTranslation_get?_no_match (lang : String)
    (t : List (String × Value)) (item : Dict) (f : String)
    (h : ∀ w, (f, w) ∈ t →
        ¬(Dict.hasKey item f = true ∧ Dict.hasKey (w.asDict) lang = true)) :
    Dict.get? (t.foldl (applyTranslation lang) item) f = Dict.get? item f := by
  induction t generalizing item with
  | nil => rfl
  | cons e rest ih =>
    obtain ⟨g, w⟩ := e
    rw [List.foldl_cons]
    have hstep : Dict.get? (applyTranslation lang item (g, w)) f = Dict.get? item f := by
      unfold applyTranslation
      split
      · rename_i hcond
        rw [Bool.and_eq_true] at hcond
        obtain ⟨h1, h2⟩ := hcond
        by_cases hg : g = f
        · subst hg
          exact absurd ⟨h1, h2⟩ (h w (List.mem_cons_self _ _))
        · rw [Dict.get?_set, if_neg (fun x : f = g => hg x.symm)]
      · rfl
    have hrest : ∀ w2, (f, w2) ∈ rest →
        ¬(Dict.hasKey (applyTranslation lang item (g, w)) f = true ∧
          Dict.hasKey (w2.asDict) lang = true) := by
      intro w2 hw2 hc
      rw [applyTranslation_hasKey] at hc
      exact h w2 (List.mem_cons_of_mem _ hw2) hc
    rw [ih _ hrest, hstep]

theorem localizeItem_get?_translation {lang : String} {item t m : Dict} {f : String}
    {v : Value}
    (ht : Dict.get? item "translations" = some (.vdict t))
    (hnd : (t.map Prod.fst).Nodup)
    (hf : Dict.get? t f = some (.vdict m))
    (hm : Dict.get? m lang = some v)
    (hbase : Dict.hasKey item f = true) :
    Dict.get? (localizeItem lang item) f = some v := by
  obtain ⟨t₁, t₂, heq, hne⟩ := Dict.get?_eq_some_split hf
  have hkey : Dict.hasKey item "translations" = true := by
    simp [Dict.hasKey, ht]
  have hunf : localizeItem lang item = t.foldl (applyTranslation lang) item := by
    unfold localizeItem
    simp [hkey, Dict.getv, ht, Value.asDict]
  have hf2 : ∀ w, (f, w) ∈ t₂ → False := by
    intro w hw
    have hmap : (t.map Prod.fst) = t₁.map Prod.fst ++ f :: t₂.map Prod.fst := by
      simp [heq]
    rw [hmap] at hnd
    have : f ∉ t₂.map Prod.fst := by
      have := (List.nodup_append.mp hnd).2.1
      exact (List.nodup_cons.mp this).1
    exact this (List.mem_map_of_mem Prod.fst hw)
  have hmid : Dict.get? (t₁.foldl (applyTranslation lang) item) f = Dict.get? item f :=
    foldl_applyTranslation_get?_no_match _ _ _ _
      (fun w hw _ => (hne (f, w) hw rfl).elim)
  have hhk : Dict.hasKey (t₁.foldl (applyTranslation lang) item) f = true := by
    rw [foldl_applyTranslation_hasKey]; exact hbase
  have hmlang : Dict.hasKey m lang = true := by
    simp [Dict.hasKey, hm]
  have happ : applyTranslation lang (t₁.foldl (applyTranslation lang) item) (f, .vdict m)
      = Dict.set (t₁.foldl (applyTranslation lang) item) f v := by
    rw [applyTranslation_eq_set hhk
      (show Dict.hasKey ((Value.vdict m).asDict) lang = true from hmlang)]
    simp [Value.asDict, Dict.getv, hm]
  rw [hunf, heq, List.foldl_append, List.foldl_cons, happ,
    foldl_applyTranslation_get?_no_match _ t₂ _ f (fun w hw _ => (hf2 w hw).elim),
    Dict.get?_set]
  simp

theorem localizeItem_get?_no_match {lang : String} {item : Dict} {f : String}
    (h : ∀ w, (f, w) ∈ (Dict.getv item "translations").asDict →
        ¬(Dict.hasKey item f = true ∧ Dict.hasKey (w.asDict) lang = true)) :
    Dict.get? (localizeItem lang item) f = Dict.get? item f := by
  unfold localizeItem
  cases hk : Dict.hasKey item "translations"
  · simp
  · simp only [hk, Bool.not_true, Bool.false_eq_true, if_false]
    exact foldl_applyTranslation_get?_no_match _ _ _ _ h

theorem activeUniqueVals_cons_active {item : Dict} {rest : List Dict} {uf : String}
    (ha : (Dict.getv item "is_active").truthy = true) :
    activeUniqueVals (item :: rest) uf =
      pyUpper ((Dict.getv item uf).pyStr) :: activeUniqueVals rest uf := by
  simp [activeUniqueVals, List.filter_cons, ha]

theorem activeUniqueVals_cons_inactive {item : Dict} {rest : List Dict} {uf : String}
    (ha : (Dict.getv item "is_active").truthy = false) :
    activeUniqueVals (item :: rest) uf = activeUniqueVals rest uf := by
  simp [activeUniqueVals, List.filter_cons, ha]

theorem checkUniquenessFrom_cons_inactive {uf : String} {item : Dict}
    {rest : List Dict} {seen : List String}
    (ha : (Dict.getv item "is_active").truthy = false) :
    checkUniquenessFrom uf (item :: rest) seen = checkUniquenessFrom uf rest seen := by
  rw [checkUniquenessFrom]
  simp [ha]

theorem checkUniquenessFrom_cons_active {uf : String} {item : Dict}
    {rest : List Dict} {seen : List String}
    (ha : (Dict.getv item "is_active").truthy = true)
    (hne : (Dict.getv item uf).truthy = true) :
    checkUniquenessFrom uf (item :: rest) seen =
      (if seen.contains (pyUpper ((Dict.getv item uf).pyStr))
       then .error (.duplicateValue (Dict.getv item uf) uf)
       else checkUniquenessFrom uf rest
         (seen ++ [pyUpper ((Dict.getv item uf).pyStr)])) := by
  rw [checkUniquenessFrom]
  simp [ha, hne]

/-- The scan of `_check_uniqueness` succeeds from an accumulator `seen`
exactly when the compared values are pairwise distinct and avoid `seen`
(assuming no active item has a falsy unique-field value). -/
theorem checkUniquenessFrom_ok_iff (uf : String) (items : List Dict)
    (seen : List String)
    (h : ∀ it ∈ items, (Dict.getv it "is_active").truthy = true →
        (Dict.getv it uf).truthy = true) :
    checkUniquenessFrom uf items seen = .ok () ↔
      ((activeUniqueVals items uf).Nodup ∧
        ∀ x ∈ activeUniqueVals items uf, x ∉ seen) := by
  induction items generalizing seen with
  | nil => simp [checkUniquenessFrom, activeUniqueVals]
  | cons item rest ih =>
    have hrest : ∀ it ∈ rest, (Dict.getv it "is_active").truthy = true →
        (Dict.getv it uf).truthy = true :=
      fun it hit => h it (List.mem_cons_of_mem _ hit)
    cases ha : (Dict.getv item "is_active").truthy with
    | false =>
      rw [checkUniquenessFrom_cons_inactive ha, activeUniqueVals_cons_inactive ha]
      exact ih seen hrest
    | true =>
      have hne : (Dict.getv item uf).truthy = true :=
        h item (List.mem_cons_self _ _) ha
      rw [checkUniquenessFrom_cons_active ha hne, activeUniqueVals_cons_active ha]
      by_cases hs : List.contains seen (pyUpper ((Dict.getv item uf).pyStr))
      · rw [if_pos hs]
        constructor
        · intro hc; exact absurd hc (by simp)
        · rintro ⟨hnd, hmem⟩
          have humem : pyUpper ((Dict.getv item uf).pyStr) ∈ seen := by
            simpa using hs
          exact absurd humem (hmem _ (List.mem_cons_self _ _))
      · rw [if_neg hs]
        have husn : pyUpper ((Dict.getv item uf).pyStr) ∉ seen := by
          simpa using hs
        rw [ih _ hrest]
        constructor
        · rintro ⟨h1, h2⟩
          refine ⟨List.nodup_cons.mpr ⟨?_, h1⟩, ?_⟩
          · intro hu
            have := h2 _ hu
            simp at this
          · intro x hx
            rcases List.mem_cons.mp hx with hx | hx
            · subst hx; exact husn
            · intro hxs
              exact h2 x hx (List.mem_append_left _ hxs)
        · rintro ⟨h1, h2⟩
          obtain ⟨hu, h1b⟩ := List.nodup_cons.mp h1
          refine ⟨h1b, ?_⟩
          intro x hx hxs
          rcases List.mem_append.mp hxs with hxs | hxs
          · exact h2 x (List.mem_cons_of_mem _ hx) hxs
          · have hxu : x = pyUpper ((Dict.getv item uf).pyStr) := by simpa using hxs
            subst hxu
            exact hu hx

theorem asItems_map_vdict (l : List Dict) :
    Value.asItems (.vlist (l.map .vdict)) = l := by
  induction l with
  | nil => rfl
  | cons d rest ih =>
    simp only [Value.asItems, List.map_cons, List.filterMap_cons] at ih ⊢
    simpa using ih

theorem checkFields_kwItem (store : Store) {k : String} (hk : k ≠ "")
    (n : Nat) (ctx : LinkCtx) :
    checkFields store (.vstr "name") n (kwItem k)
      [("name", .vdict []), ("qcode", .vdict [])] ctx = (ctx, none) := by
  have hke : k.isEmpty = false := isEmpty_false_of_ne hk
  simp [checkFields, checkField, kwItem, Dict.getD, Dict.getv, Dict.get?,
    Dict.hasKey, Value.asDict, pyEq, Value.truthy, hke]

theorem checkItems_kwItems (store : Store) {kws : List String}
    (h : ∀ k ∈ kws, k ≠ "") (n : Nat) (ctx : LinkCtx) :
    checkItems store (.vstr "name") [("name", .vdict []), ("qcode", .vdict [])]
      n (kws.map kwItem) ctx = (ctx, none) := by
  induction kws generalizing n ctx with
  | nil => rfl
  | cons k rest ih =>
    rw [List.map_cons, checkItems,
      checkFields_kwItem store (h k (List.mem_cons_self _ _)) n ctx]
    exact ih (fun k2 hk2 => h k2 (List.mem_cons_of_mem _ hk2)) _ _

/-- `_validate_items` accepts the freshly built keywords vocabulary when
every keyword is a nonempty string, performing no link lookups and no
mutation (`unique_field` is already set). -/
theorem validate_items_kwInitialCV (store : Store) {kws : List String}
    (h : ∀ k ∈ kws, k ≠ "") :
    validate_items store (kwInitialCV kws) = ⟨kwInitialCV kws, [], none⟩ := by
  have h0 : Dict.hasKey [("name", Value.vdict []), ("qcode", Value.vdict [])] "qcode" = true := rfl
  have h1 : ((Dict.getv (kwInitialCV kws) "schema").asDict).hasKey "qcode" = true := rfl
  have h2 : Dict.hasKey (kwInitialCV kws) "unique_field" = true := rfl
  have h3 : Dict.getv (kwInitialCV kws) "unique_field" = .vstr "name" := rfl
  have h4a : Dict.hasKey (kwInitialCV kws) "schema" = true := rfl
  have h4b : Dict.hasKey (kwInitialCV kws) "items" = true := rfl
  have h6 : (Dict.getv (kwInitialCV kws) "schema").asDict
      = [("name", .vdict []), ("qcode", .vdict [])] := rfl
  have h7 : (Dict.getv (kwInitialCV kws) "items").asItems = kws.map kwItem := by
    show Value.asItems (.vlist (List.map (Value.vdict ∘ kwItem) kws)) = kws.map kwItem
    rw [← List.map_map]
    exact asItems_map_vdict (kws.map kwItem)
  unfold validate_items
  simp [h0, h1, h2, h3, h4a, h4b, h6, h7, Dict.setdefault_of_hasKey _ h2,
    checkItems_kwItems store h 0 emptyLinkCtx, emptyLinkCtx]
  rw [checkItems_kwItems store h 0 ⟨[], []⟩]
  exact ⟨rfl, rfl⟩

theorem Dict.hasKey_setdefault_ne (d : Dict) {k k' : String} (v : Value)
    (h : k' ≠ k) :
    Dict.hasKey (Dict.setdefault d k v) k' = Dict.hasKey d k' := by
  simp [Dict.hasKey, Dict.get?_setdefault_ne d v h]

theorem Dict.get?_setdefault_self {d : Dict} {k : String} (v : Value)
    (h : Dict.hasKey d k = false) :
    Dict.get? (Dict.setdefault d k v) k = some v := by
  rw [Dict.setdefault_of_not_hasKey v h, Dict.get?_append]
  have hg : Dict.get? d k = none := by
    cases hh : Dict.get? d k with
    | none => rfl
    | some w => rw [Dict.hasKey, hh] at h; simp at h
  simp [hg, Dict.get?_cons]

/-- The document returned by `_validate_items` when the schema declares
`qcode`. -/
theorem validate_items_doc_of_qcode {store : Store} {update : Dict}
    (h1 : ((Dict.getv update "schema").asDict).hasKey "qcode" = true) :
    (validate_items store update).doc =
      Dict.setdefault update "unique_field" (.vstr "qcode") := by
  simp only [validate_items, h1, if_true]
  split <;> rfl

/-- The document returned by `_validate_items` when the schema does not
declare `qcode`: the argument is unchanged. -/
theorem validate_items_doc_of_no_qcode {store : Store} {update : Dict}
    (h1 : ((Dict.getv update "schema").asDict).hasKey "qcode" = false) :
    (validate_items store update).doc = update := by
  simp only [validate_items, h1, Bool.false_eq_true, if_false]
  split <;> rfl

/-- `_validate_items` only ever touches the `unique_field` key of its
argument. -/
theorem validate_items_get?_ne {store : Store} {update : Dict} {k : String}
    (hk : k ≠ "unique_field") :
    Dict.get? (validate_items store update).doc k = Dict.get? update k := by
  cases h1 : ((Dict.getv update "schema").asDict).hasKey "qcode" with
  | false => rw [validate_items_doc_of_no_qcode h1]
  | true => rw [validate_items_doc_of_qcode h1, Dict.get?_setdefault_ne update _ hk]

/-- Success characterization of `on_create` for one document. -/
theorem onCreateDoc_ok_iff {store : Store} {keys : List String} {doc d : Dict} :
    onCreateDoc store keys doc = .ok d ↔
      ((validate_items store doc).err = none ∧
       ((((validate_items store doc).doc.getv "field_type").truthy &&
          keys.contains ((validate_items store doc).doc.getv "_id").asStr) = false) ∧
       store.deleted (((validate_items store doc).doc.getv "_id").asStr) = none ∧
       d = (validate_items store doc).doc) := by
  simp only [onCreateDoc]
  cases herr : (validate_items store doc).err with
  | some e => simp [herr]
  | none =>
    simp only [herr]
    cases hc1 : (((validate_items store doc).doc.getv "field_type").truthy &&
        keys.contains ((validate_items store doc).doc.getv "_id").asStr) with
    | true => simp [hc1]
    | false =>
      simp only [hc1, Bool.false_eq_true, if_false]
      cases hdel : store.deleted (((validate_items store doc).doc.getv "_id").asStr) with
      | some w => simp [hdel]
      | none => simp [hdel, eq_comm]

/-- C8: `on_delete` raises the bad-request error for every vocabulary
document lacking a `field_type` entry, and raises no error for every
document in which `field_type` is present (even with value `None`). -/
theorem on_delete_requires_field_type :
    ∀ doc : Dict,
      (Dict.hasKey doc "field_type" = false →
        on_delete doc = .error .defaultVocabDelete) ∧
      (Dict.hasKey doc "field_type" = true → on_delete doc = .ok ()) := by
  intro doc
  constructor <;> intro h <;> simp [on_delete, h]

/-- C8 witness: a document without `field_type` is rejected; one carrying
`field_type = None` is accepted. -/
theorem on_delete_requires_field_type_witness :
    on_delete [("_id", .vstr "genre")] = .error .defaultVocabDelete ∧
    on_delete [("_id", .vstr "genre"), ("field_type", .vnone)] = .ok () :=
  ⟨(on_delete_requires_field_type [("_id", .vstr "genre")]).1 rfl,
   (on_delete_requires_field_type [("_id", .vstr "genre"), ("field_type", .vnone)]).2 rfl⟩

/-- C9: `_validate_items` performs no checks at all — no link-vocabulary
lookups and no error — on a document lacking the `schema` key or the
`items` key. -/
theorem validate_items_requires_schema_and_items :
    ∀ (store : Store) (update : Dict),
      Dict.hasKey update "schema" = false ∨ Dict.hasKey update "items" = false →
      (validate_items store update).lookups = [] ∧
      (validate_items store update).err = none := by
  intro store update h
  rcases h with h | h
  · have hg : Dict.get? update "schema" = none := by
      cases hh : Dict.get? update "schema" with
      | none => rfl
      | some v => rw [Dict.hasKey, hh] at h; simp at h
    have h1 : ((Dict.getv update "schema").asDict).hasKey "qcode" = false := by
      simp [Dict.getv, hg, Value.asDict, Dict.hasKey, Dict.get?]
    have h2 : Dict.hasKey update "schema" = false := h
    simp only [validate_items, h1, Bool.false_eq_true, if_false, h2,
      Bool.false_and]
    exact ⟨trivial, trivial⟩
  · cases h1 : ((Dict.getv update "schema").asDict).hasKey "qcode" with
    | false =>
      simp only [validate_items, h1, Bool.false_eq_true, if_false, h,
        Bool.and_false]
      exact ⟨trivial, trivial⟩
    | true =>
      have hpres : Dict.hasKey
          (Dict.setdefault update "unique_field" (.vstr "qcode")) "items" = false := by
        rw [Dict.hasKey_setdefault_ne update _ (by decide)]
        exact h
      simp only [validate_items, h1, if_true, hpres, Bool.and_false,
        Bool.false_eq_true, if_false]
      exact ⟨trivial, trivial⟩

/-- C9 witness: a document with items but no schema is validated without
any check or error. -/
theorem validate_items_requires_schema_and_items_witness :
    (validate_items emptyStore
      [("_id", .vstr "d"), ("items", .vlist [.vdict [("name", .vstr "x")]])]).lookups = [] ∧
    (validate_items emptyStore
      [("_id", .vstr "d"), ("items", .vlist [.vdict [("name", .vstr "x")]])]).err = none :=
  validate_items_requires_schema_and_items emptyStore
    [("_id", .vstr "d"), ("items", .vlist [.vdict [("name", .vstr "x")]])]
    (Or.inl rfl)

/-- C10: when the candidate schema declares `qcode` and `unique_field` is
absent, `_validate_items` mutates its argument by appending
`unique_field = "qcode"`, and a document created through `on_create` is
persisted with that value. -/
theorem validate_items_defaults_unique_field :
    ∀ (store : Store) (update : Dict) (sd : Dict),
      Dict.get? update "schema" = some (.vdict sd) →
      Dict.hasKey sd "qcode" = true →
      Dict.hasKey update "unique_field" = false →
      (validate_items store update).doc = update ++ [("unique_field", .vstr "qcode")] ∧
      Dict.get? (validate_items store update).doc "unique_field" = some (.vstr "qcode") ∧
      (∀ (systemKeys : List String) (docs : List Dict),
        on_create store systemKeys [update] = .ok docs →
        ∃ d, docs = [d] ∧ Dict.get? d "unique_field" = some (.vstr "qcode")) := by
  intro store update sd hs hq hu
  have h1 : ((Dict.getv update "schema").asDict).hasKey "qcode" = true := by
    simp [Dict.getv, hs, Value.asDict, hq]
  have hdoc : (validate_items store update).doc =
      Dict.setdefault update "unique_field" (.vstr "qcode") :=
    validate_items_doc_of_qcode h1
  refine ⟨?_, ?_, ?_⟩
  · rw [hdoc, Dict.setdefault_of_not_hasKey _ hu]
  · rw [hdoc, Dict.get?_setdefault_self _ hu]
  · intro systemKeys docs hok
    rw [on_create] at hok
    cases hcd : onCreateDoc store systemKeys update with
    | error e => rw [hcd] at hok; cases hok
    | ok d =>
      rw [hcd] at hok
      simp only [on_create] at hok
      cases hok
      have hd : d = (validate_items store update).doc :=
        (onCreateDoc_ok_iff.mp hcd).2.2.2
      refine ⟨d, rfl, ?_⟩
      rw [hd, hdoc, Dict.get?_setdefault_self _ hu]

/-- C10 witness: the mutation and persistence at a concrete document with
a `qcode` schema field and no `unique_field`. -/
theorem validate_items_defaults_unique_field_witness :
    (validate_items emptyStore qcodeSchemaDoc).doc =
      qcodeSchemaDoc ++ [("unique_field", .vstr "qcode")] ∧
    Dict.get? (validate_items emptyStore qcodeSchemaDoc).doc "unique_field" =
      some (.vstr "qcode") ∧
    (∀ (systemKeys : List String) (docs : List Dict),
      on_create emptyStore systemKeys [qcodeSchemaDoc] = .ok docs →
      ∃ d, docs = [d] ∧ Dict.get? d "unique_field" = some (.vstr "qcode")) :=
  validate_items_defaults_unique_field emptyStore qcodeSchemaDoc
    [("qcode", .vdict [])] rfl rfl rfl

/-- C5: `get_locale_vocabulary` builds a new item list by localizing each
item: an item without a `translations` map passes through unchanged; a
field with a translation for the requested language and an existing base
value is replaced by that translation; every field without a matching
translation keeps its base value.  (Mutation cannot occur: the embedding
is functional and the source builds a fresh list of copied items.) -/
theorem get_locale_vocabulary_overlay :
    (∀ (items : List Dict) (lang : String), lang ≠ "" →
        get_locale_vocabulary items (some lang) = items.map (localizeItem lang)) ∧
    (∀ (lang : String) (item : Dict), Dict.hasKey item "translations" = false →
        localizeItem lang item = item) ∧
    (∀ (lang : String) (item t m : Dict) (f : String) (v : Value),
        Dict.get? item "translations" = some (.vdict t) →
        (t.map Prod.fst).Nodup →
        Dict.get? t f = some (.vdict m) →
        Dict.get? m lang = some v →
        Dict.hasKey item f = true →
        Dict.get? (localizeItem lang item) f = some v) ∧
    (∀ (lang : String) (item : Dict) (f : String),
        (∀ w, (f, w) ∈ (Dict.getv item "translations").asDict →
            ¬(Dict.hasKey item f = true ∧ Dict.hasKey (w.asDict) lang = true)) →
        Dict.get? (localizeItem lang item) f = Dict.get? item f) := by
  refine ⟨?_, ?_, ?_, ?_⟩
  · intro items lang hl
    unfold get_locale_vocabulary
    cases items with
    | nil => simp
    | cons a rest => simp [isEmpty_false_of_ne hl]
  · intro lang item h
    unfold localizeItem
    simp [h]
  · intro lang item t m f v ht hnd hf hm hb
    exact localizeItem_get?_translation ht hnd hf hm hb
  · intro lang item f h
    exact localizeItem_get?_no_match h

/-- C5 witness: the spec's example item resolved with `fr` yields
`name = "Monde"`; resolved with `de` it keeps `name = "Global"`. -/
theorem get_locale_vocabulary_overlay_witness :
    get_locale_vocabulary [globalItem] (some "fr") = [localizeItem "fr" globalItem] ∧
    Dict.get? (localizeItem "fr" globalItem) "name" = some (.vstr "Monde") ∧
    Dict.get? (localizeItem "de" globalItem) "name" = Dict.get? globalItem "name" ∧
    Dict.get? globalItem "name" = some (.vstr "Global") := by
  refine ⟨?_, ?_, ?_, rfl⟩
  · exact get_locale_vocabulary_overlay.1 [globalItem] "fr" (by decide)
  · exact get_locale_vocabulary_overlay.2.2.1 "fr" globalItem
      [("name", .vdict [("fr", .vstr "Monde")])] [("fr", .vstr "Monde")]
      "name" (.vstr "Monde") rfl (by decide) rfl rfl rfl
  · refine get_locale_vocabulary_overlay.2.2.2 "de" globalItem "name" ?_
    intro w hw
    have hw2 : w = Value.vdict [("fr", Value.vstr "Monde")] :=
      congrArg Prod.snd (List.mem_singleton.mp hw)
    subst hw2
    intro hc
    exact absurd hc.2 (by decide)

/-- C6: `get_items(_id, is_active=True)` returns `[]` when the vocabulary
is missing or has no `items` key; otherwise exactly the items whose
`is_active` (absent treated as `True`) equals `True`, each stripped of
`is_active` and given `scheme = _id`. -/
theorem get_items_active_projection :
    (∀ (store : Store) (_id : String), store.live _id = none →
        get_items store _id (some true) = []) ∧
    (∀ (store : Store) (_id : String) (doc : Dict), store.live _id = some doc →
        Dict.get? doc "items" = none → get_items store _id (some true) = []) ∧
    (∀ (store : Store) (_id : String) (doc : Dict) (itemsV : Value),
        store.live _id = some doc → Dict.get? doc "items" = some itemsV →
        get_items store _id (some true) =
          (itemsV.asItems.filter
            (fun i => pyEq (Dict.getD i "is_active" (.vbool true)) (.vbool true))).map
            (format_item _id)) ∧
    (∀ (_id : String) (item : Dict), keysNodup item →
        Dict.get? (format_item _id item) "is_active" = none ∧
        Dict.get? (format_item _id item) "scheme" = some (.vstr _id)) := by
  refine ⟨?_, ?_, ?_, ?_⟩
  · intro store _id h
    unfold get_items
    rw [h]
  · intro store _id doc h hi
    unfold get_items
    rw [h]
    dsimp only
    rw [hi]
  · intro store _id doc itemsV h hi
    unfold get_items
    rw [h]
    dsimp only
    rw [hi]
  · intro _id item hnd
    constructor
    · unfold format_item
      rw [Dict.get?_set, if_neg (by decide),
        Dict.get?_erase "is_active" "is_active" hnd, if_pos rfl]
    · unfold format_item
      rw [Dict.get?_set, if_pos rfl]

/-- C6 witness: the spec's `languages` example. -/
theorem get_items_active_projection_witness :
    get_items langStore "languages" (some true) =
      [[("name", .vstr "English"), ("scheme", .vstr "languages")]] ∧
    Dict.get? (format_item "languages"
      [("name", .vstr "English"), ("is_active", .vbool true)]) "is_active" = none := by
  constructor
  · rw [get_items_active_projection.2.2.1 langStore "languages" langVocabDoc
      (.vlist
        [.vdict [("name", .vstr "English"), ("is_active", .vbool true)],
         .vdict [("name", .vstr "Dead"), ("is_active", .vbool false)]]) rfl rfl]
    rfl
  · exact (get_items_active_projection.2.2.2 "languages"
      [("name", .vstr "English"), ("is_active", .vbool true)]
      (by unfold keysNodup; decide)).1

/-- C2 counterexample: two items with equal case-insensitive `name` values
and no `is_active` key raise no error — `_check_uniqueness` skips items
whose `is_active` is absent (or otherwise falsy), contradicting the
claim's "absent is_active treated as true". -/
theorem check_uniqueness_absent_counterexample :
    check_uniqueness absentActiveItems "name" = .ok () ∧
    Dict.get? [("name", Value.vstr "A")] "is_active" = none ∧
    Dict.get? [("name", Value.vstr "a")] "is_active" = none ∧
    pyUpper ((Dict.getv [("name", Value.vstr "A")] "name").pyStr) =
      pyUpper ((Dict.getv [("name", Value.vstr "a")] "name").pyStr) :=
  ⟨rfl, rfl, rfl, rfl⟩

/-- C2 (amended): among the items `_check_uniqueness` treats as active —
those whose `is_active` value is truthy; an absent or falsy `is_active`
skips the item — the check succeeds exactly when the case-insensitive
stringified unique-field values are pairwise distinct (assuming every
such active item carries a truthy unique-field value, so the empty-value
error does not fire). -/
theorem check_uniqueness_truthy_active_nodup :
    ∀ (items : List Dict) (uf : String),
      (∀ it ∈ items, (Dict.getv it "is_active").truthy = true →
          (Dict.getv it uf).truthy = true) →
      (check_uniqueness items uf = .ok () ↔ (activeUniqueVals items uf).Nodup) := by
  intro items uf h
  rw [check_uniqueness, checkUniquenessFrom_ok_iff uf items [] h]
  simp

/-- C2 witness: the amended equivalence at two explicitly active items
sharing a case-insensitive name (the check fails, and the value list has
a duplicate). -/
theorem check_uniqueness_truthy_active_nodup_witness :
    (check_uniqueness
      [[("name", .vstr "A"), ("is_active", .vbool true)],
       [("name", .vstr "a"), ("is_active", .vbool true)]] "name" = .ok () ↔
      (activeUniqueVals
        [[("name", .vstr "A"), ("is_active", .vbool true)],
         [("name", .vstr "a"), ("is_active", .vbool true)]] "name").Nodup) := by
  refine check_uniqueness_truthy_active_nodup _ "name" ?_
  intro it hit _
  rcases List.mem_cons.mp hit with h1 | h1
  · subst h1; rfl
  · rcases List.mem_cons.mp h1 with h2 | h2
    · subst h2; rfl
    · cases h2

/-- C3 counterexample: the original declares `unique_field` and its item
list contains a case-insensitive duplicate, yet an update that does not
touch `items` passes `on_update` — the uniqueness check runs over
`updates.get("items", [])`, not over the original's items. -/
theorem on_update_no_items_counterexample :
    on_update emptyStore [("display_name", .vstr "New")] dupOriginal = .ok () ∧
    check_uniqueness ((Dict.getv dupOriginal "items").asItems) "name" =
      .error (.duplicateValue (.vstr "X") "name") :=
  ⟨rfl, rfl⟩

/-- C3 (amended): when the original declares unique_field, `on_update`
rechecks uniqueness over the update's item list when the update touches
items; otherwise it checks the empty list, i.e. performs no uniqueness
check at all and always succeeds. -/
theorem on_update_unique_scope :
    (∀ (store : Store) (updates original : Dict),
        Dict.hasKey updates "items" = false →
        on_update store updates original = .ok ()) ∧
    (∀ (store : Store) (updates original : Dict) (itemsV : Value),
        Dict.get? updates "items" = some itemsV →
        (Dict.getv original "unique_field").truthy = true →
        (validate_items store (Dict.update original updates)).err = none →
        on_update store updates original =
          check_uniqueness itemsV.asItems (Dict.getv original "unique_field").asStr) := by
  constructor
  · intro store updates original h
    have hg : Dict.get? updates "items" = none := by
      cases hh : Dict.get? updates "items" with
      | none => rfl
      | some w => rw [Dict.hasKey, hh] at h; simp at h
    simp only [on_update, h, Bool.false_eq_true, if_false]
    cases ht : (Dict.getv original "unique_field").truthy
    · simp [ht]
    · simp [ht, Dict.getD, hg, Value.asItems, check_uniqueness, checkUniquenessFrom]
  · intro store updates original itemsV hi ht hv
    have hk : Dict.hasKey updates "items" = true := by simp [Dict.hasKey, hi]
    simp only [on_update, hk, if_true, hv, ht, Dict.getD, hi, Option.getD_some]

/-- C3 witness: an update that does touch items is checked over exactly
those items (here failing on a duplicate), and one that does not touch
items always passes. -/
theorem on_update_unique_scope_witness :
    on_update emptyStore [("popup_width", .vint 200)] dupOriginal = .ok () ∧
    on_update emptyStore [("items", Dict.getv dupOriginal "items")] dupOriginal =
      check_uniqueness ((Dict.getv dupOriginal "items").asItems) "name" := by
  constructor
  · exact on_update_unique_scope.1 emptyStore [("popup_width", .vint 200)] dupOriginal rfl
  · exact on_update_unique_scope.2 emptyStore
      [("items", Dict.getv dupOriginal "items")] dupOriginal
      (Dict.getv dupOriginal "items") rfl rfl rfl

theorem cacheInv_emptyLinkCtx (v : String) : CacheInv v emptyLinkCtx :=
  ⟨fun _ => rfl, fun l hl => by cases hl⟩

theorem cacheInv_count_le_one {v : String} {ctx : LinkCtx} (h : CacheInv v ctx) :
    ctx.lookups.count v ≤ 1 := by
  cases hc : cacheGet ctx.cache v with
  | none => rw [h.1 hc]; exact Nat.zero_le 1
  | some l => exact (h.2 l hc).2

/-- The lookup log of `_validate_items` is empty or produced by the item
loop started from the fresh context. -/
theorem validate_items_lookups_shape (store : Store) (update : Dict) :
    (validate_items store update).lookups = [] ∨
    ∃ (uf : Value) (schema : Dict) (items : List Dict),
      (validate_items store update).lookups =
        (checkItems store uf schema 0 items emptyLinkCtx).1.lookups := by
  simp only [validate_items]
  split
  · split
    · right; exact ⟨_, _, _, rfl⟩
    · left; rfl
  · split
    · right; exact ⟨_, _, _, rfl⟩
    · left; rfl

/-- C4 counterexample: with two items lacking the linked field and the
target vocabulary absent from the store, one `_validate_items` call
issues two store lookups for the same vocabulary — the `vocabs` cache
stores a falsy (empty) value list, which fails the `not vocabs.get(...)`
test on every later item. -/
theorem validate_items_repeated_lookup :
    (validate_items emptyStore twoItemLinkDoc).lookups = ["v", "v"] ∧
    ((validate_items emptyStore twoItemLinkDoc).lookups.count "v") = 2 ∧
    (validate_items emptyStore twoItemLinkDoc).err = none :=
  ⟨rfl, rfl, rfl⟩

/-- C4 (amended): within one `_validate_items` call the store lookup for
a target vocabulary is performed at most once provided the vocabulary
resolves to a nonempty value list; only a vocabulary resolving to an
empty list (absent, or without items) can be looked up repeatedly. -/
theorem link_lookup_once_when_nonempty :
    ∀ (store : Store) (update : Dict) (v : String),
      (∀ lf, linkValues store v lf ≠ []) →
      ((validate_items store update).lookups.count v) ≤ 1 := by
  intro store update v H
  rcases validate_items_lookups_shape store update with h | ⟨uf, schema, items, h⟩
  · rw [h]; simp
  · rw [h]
    exact cacheInv_count_le_one
      (checkItems_cacheInv H uf schema 0 items (cacheInv_emptyLinkCtx v))

/-- C4 witness: the same two-item document validated against a store
where the target vocabulary has items triggers at most one lookup. -/
theorem link_lookup_once_when_nonempty_witness :
    ((validate_items
      ⟨fun i => if i = "v"
          then some [("items", .vlist [.vdict [("qcode", .vstr "q1")]])] else none,
        fun _ => none⟩
      twoItemLinkDoc).lookups.count "v") ≤ 1 := by
  refine link_lookup_once_when_nonempty _ twoItemLinkDoc "v" ?_
  intro lf
  intro hc
  have : ([(Value.vdict [("qcode", Value.vstr "q1")] : Value)].filterMap
      (fun v => match v with | Value.vdict d => some d | _ => none)).map
      (fun it => Dict.getv it lf) = [] := hc
  simp at this

theorem validate_items_getv_ne {store : Store} {update : Dict} {k : String}
    (hk : k ≠ "unique_field") :
    Dict.getv (validate_items store update).doc k = Dict.getv update k := by
  simp [Dict.getv, validate_items_get?_ne hk]

/-- C7 counterexample: a document whose id is a reserved system key but
which carries no `field_type` is accepted by `on_create` — the reserved
check fires only for documents declaring a truthy `field_type`. -/
theorem on_create_reserved_without_field_type :
    on_create emptyStore ["body_html"] [reservedIdDoc] = .ok [reservedIdDoc] ∧
    (Dict.getv reservedIdDoc "_id").asStr ∈ ["body_html"] ∧
    Dict.get? reservedIdDoc "field_type" = none :=
  ⟨rfl, by decide, rfl⟩

/-- C7 (amended): `on_create` rejects a reserved id only when the
document declares a truthy `field_type`; it rejects every document whose
id matches a soft-deleted vocabulary; and a failure of any document makes
the whole batch fail (the hook raises, so nothing is inserted). -/
theorem on_create_conflict_checks :
    (∀ (store : Store) (keys : List String) (docs : List Dict) (l : List Dict)
        (doc : Dict),
        on_create store keys docs = .ok l → doc ∈ docs →
        (((Dict.getv doc "field_type").truthy &&
            keys.contains (Dict.getv doc "_id").asStr) = false ∧
         store.deleted (Dict.getv doc "_id").asStr = none ∧
         (validate_items store doc).err = none)) ∧
    (∀ (store : Store) (keys : List String) (docs : List Dict) (doc : Dict)
        (e : VocabError),
        doc ∈ docs → onCreateDoc store keys doc = .error e →
        ∃ e2, on_create store keys docs = .error e2) ∧
    (∀ (store : Store) (keys : List String) (doc : Dict),
        (validate_items store doc).err = none →
        (Dict.getv doc "field_type").truthy = true →
        keys.contains (Dict.getv doc "_id").asStr = true →
        onCreateDoc store keys doc = .error (.reservedId (Dict.getv doc "_id").asStr)) ∧
    (∀ (store : Store) (keys : List String) (doc w : Dict),
        (validate_items store doc).err = none →
        ((Dict.getv doc "field_type").truthy &&
          keys.contains (Dict.getv doc "_id").asStr) = false →
        store.deleted (Dict.getv doc "_id").asStr = some w →
        onCreateDoc store keys doc = .error (.deletedId (Dict.getv doc "_id").asStr)) := by
  have hft : ∀ (store : Store) (doc : Dict),
      Dict.getv (validate_items store doc).doc "field_type" = Dict.getv doc "field_type" :=
    fun store doc => validate_items_getv_ne (by decide)
  have hid : ∀ (store : Store) (doc : Dict),
      Dict.getv (validate_items store doc).doc "_id" = Dict.getv doc "_id" :=
    fun store doc => validate_items_getv_ne (by decide)
  refine ⟨?_, ?_, ?_, ?_⟩
  · intro store keys docs
    induction docs with
    | nil => intro l doc _ hmem; cases hmem
    | cons a rest ih =>
      intro l doc hok hmem
      rw [on_create] at hok
      cases hcd : onCreateDoc store keys a with
      | error e => rw [hcd] at hok; cases hok
      | ok d =>
        rw [hcd] at hok
        cases hrest : on_create store keys rest with
        | error e => rw [hrest] at hok; cases hok
        | ok ds =>
          rcases List.mem_cons.mp hmem with h | h
          · subst h
            have hiff := onCreateDoc_ok_iff.mp hcd
            refine ⟨?_, ?_, hiff.1⟩
            · rw [← hft store doc, ← hid store doc]
              exact hiff.2.1
            · rw [← hid store doc]
              exact hiff.2.2.1
          · exact ih ds doc hrest h
  · intro store keys docs
    induction docs with
    | nil => intro doc e hmem; cases hmem
    | cons a rest ih =>
      intro doc e hmem herr
      rcases List.mem_cons.mp hmem with h | h
      · subst h
        rw [on_create, herr]
        exact ⟨e, rfl⟩
      · cases hcd : onCreateDoc store keys a with
        | error e2 =>
          rw [on_create, hcd]
          exact ⟨e2, rfl⟩
        | ok d =>
          obtain ⟨e2, he2⟩ := ih doc e h herr
          rw [on_create, hcd, he2]
          exact ⟨e2, rfl⟩
  · intro store keys doc hv hftt hct
    simp only [onCreateDoc, hv, hft store doc, hid store doc, hftt, hct]
    simp
  · intro store keys doc w hv hcond hdel
    simp only [onCreateDoc, hv, hft store doc, hid store doc, hcond, hdel]
    simp

/-- C7 witness: the same id is rejected once the document declares a
truthy `field_type`, and a soft-deleted id is rejected. -/
theorem on_create_conflict_checks_witness :
    onCreateDoc emptyStore ["body_html"]
      [("_id", .vstr "body_html"), ("field_type", .vstr "text")] =
      .error (.reservedId "body_html") ∧
    onCreateDoc ⟨fun _ => none, fun i => if i = "old" then some [] else none⟩ []
      [("_id", .vstr "old")] = .error (.deletedId "old") := by
  constructor
  · exact on_create_conflict_checks.2.2.1 emptyStore ["body_html"]
      [("_id", .vstr "body_html"), ("field_type", .vstr "text")] rfl rfl rfl
  · exact on_create_conflict_checks.2.2.2
      ⟨fun _ => none, fun i => if i = "old" then some [] else none⟩ []
      [("_id", .vstr "old")] [] rfl rfl rfl

theorem kwInitialCV_items (kws : List String) :
    (Dict.getv (kwInitialCV kws) "items").asItems = kws.map kwItem := by
  show Value.asItems (.vlist (List.map (Value.vdict ∘ kwItem) kws)) = kws.map kwItem
  rw [← List.map_map]
  exact asItems_map_vdict (kws.map kwItem)

theorem existingKeywordNames_kwInitialCV (kws : List String) :
    existingKeywordNames (kwInitialCV kws) = kws.map pyLower := by
  unfold existingKeywordNames
  rw [show Dict.getD (kwInitialCV kws) "items" (.vlist [])
      = .vlist (List.map (Value.vdict ∘ kwItem) kws) from rfl]
  rw [← List.map_map, asItems_map_vdict, List.map_map]
  rfl

/-- C1 counterexample: creating the keywords vocabulary from
`["Paris", "paris", "London"]` yields three items — one per input
keyword, case-variant duplicates included — not the two the claim
predicts. -/
theorem add_missing_keywords_paris_counterexample :
    add_missing_keywords emptyStore [] parisKeywords =
      .created (kwInitialCV parisKeywords) ∧
    ((Dict.getv (kwInitialCV parisKeywords) "items").asItems).length = 3 ∧
    ((Dict.getv (kwInitialCV parisKeywords) "items").asItems).map
      (fun it => Dict.getv it "name") =
      [.vstr "Paris", .vstr "paris", .vstr "London"] :=
  ⟨rfl, rfl, rfl⟩

/-- C1 (amended): when the keywords vocabulary does not exist,
`add_missing_keywords` creates it with exactly one item per input keyword
in input order (name = qcode = keyword, active) — duplicate case-variants
in the input are not collapsed.  A second call whose keywords are all
case-insensitively covered by existing item names is a no-op, and the
names of a freshly created vocabulary cover its own input, so repeated
calls with the same input change nothing after the first. -/
theorem add_missing_keywords_per_keyword :
    (∀ (store : Store) (systemKeys : List String) (kws : List String),
        store.live KEYWORDS_CV = none → store.deleted KEYWORDS_CV = none →
        kws ≠ [] → (∀ k ∈ kws, k ≠ "") →
        add_missing_keywords store systemKeys kws = .created (kwInitialCV kws)) ∧
    (∀ kws : List String,
        (Dict.getv (kwInitialCV kws) "items").asItems = kws.map kwItem) ∧
    (∀ (store : Store) (systemKeys : List String) (kws : List String) (cv : Dict),
        store.live KEYWORDS_CV = some cv →
        (∀ k ∈ kws, pyLower k ∈ existingKeywordNames cv) →
        add_missing_keywords store systemKeys kws = .noop) ∧
    (∀ (kws : List String) (k : String), k ∈ kws →
        pyLower k ∈ existingKeywordNames (kwInitialCV kws)) := by
  refine ⟨?_, kwInitialCV_items, ?_, ?_⟩
  · intro store systemKeys kws h1 h2 h3 h4
    have hem : kws.isEmpty = false := by
      cases hkw : kws.isEmpty
      · rfl
      · exact absurd (List.isEmpty_iff.mp hkw) h3
    have hval : validate_items store (kwInitialCV kws) = ⟨kwInitialCV kws, [], none⟩ :=
      validate_items_kwInitialCV store h4
    have hcd : onCreateDoc store systemKeys (kwInitialCV kws) = .ok (kwInitialCV kws) := by
      refine onCreateDoc_ok_iff.mpr ⟨?_, ?_, ?_, ?_⟩
      · rw [hval]
      · rw [hval]; rfl
      · rw [hval]
        exact h2
      · rw [hval]
    simp only [add_missing_keywords, hem, Bool.false_eq_true, if_false, h1]
    rw [on_create, hcd, on_create]
    rfl
  · intro store systemKeys kws cv hcv hmem
    cases hem : kws.isEmpty with
    | true =>
      have : kws = [] := List.isEmpty_iff.mp hem
      subst this
      rfl
    | false =>
      have hfil : kws.filter
          (fun kw => !((existingKeywordNames cv).contains (pyLower kw))) = [] := by
        rw [List.filter_eq_nil_iff]
        intro k hk
        have := hmem k hk
        simp [this]
      simp only [add_missing_keywords, hem, Bool.false_eq_true, if_false, hcv, hfil]
      rfl
  · intro kws k hk
    rw [existingKeywordNames_kwInitialCV]
    exact List.mem_map_of_mem pyLower hk

/-- C1 witness: creation from a fresh store, and the no-op second call
with the same input against the store holding the created vocabulary. -/
theorem add_missing_keywords_per_keyword_witness :
    add_missing_keywords emptyStore [] ["Madrid", "Rome"] =
      .created (kwInitialCV ["Madrid", "Rome"]) ∧
    add_missing_keywords parisKeywordsStore [] parisKeywords = .noop := by
  constructor
  · exact add_missing_keywords_per_keyword.1 emptyStore [] ["Madrid", "Rome"]
      rfl rfl (by decide) (by decide)
  · exact add_missing_keywords_per_keyword.2.2.1 parisKeywordsStore []
      parisKeywords (kwInitialCV parisKeywords) rfl
      (fun k hk => add_missing_keywords_per_keyword.2.2.2 parisKeywords k hk)

end Vocab
